import Mathlib

/-
Shallow embedding of `src/cstop/core.py` (exhuma/stopwatch).

The embedding covers the parts of the program the claims are about:

* class `SimpleTimer` (lines 19-49): the `state_switches` timestamp list,
  `resume`, `stop` (with its alias `pause`) and the `seconds` property;
* the state of the `main` input loop (lines 150-204): the module-level
  `TIMERS` dict, `GLOBALS['current_key']`, and the loop-local variables
  `last_active` and `paused`;
* the body of the `while True:` keystroke loop (lines 164-198) and the
  shutdown code directly after it (lines 200-201) that stops every timer.

Modelling decisions:

* `datetime.now()` is replaced by an explicit clock value passed into each
  operation.  The clock is a `Nat` counting whole seconds; every scenario in
  the spec advances the clock in whole seconds, and on whole-second
  timestamps `int(total_seconds)` (truncation) is exact, so `seconds` is
  computed in `Int` with no rounding.
* keystrokes are the result of `sys.stdin.read(1)`: a `String` of length at
  most one, where `""` is what a read on an exhausted input source returns.
  Python truthiness of `last_active` (`None` or a string) is `none`/`""` are
  falsy, any other string truthy.
* the `TIMERS` dict is an insertion-ordered association list with unique
  keys; `dict.pop(k, None)` removes the entry with key `k` if present.
* `Thread`-compatibility stubs (`SimpleTimer.start`, `SimpleTimer.join`)
  are `pass` in the source and are omitted; the background `Monitor` thread
  only reads state and is outside the claims.
-/

namespace Cstop

/-- Embedding of class `SimpleTimer` (core.py lines 19-49).  `state_switches`
is the list of timestamps at which the timer switched state; an even-length
list means stopped, an odd-length list means running with an open trailing
interval. -/
structure SimpleTimer where
  name : String
  state_switches : List Nat
deriving DecidableEq, Repr

/-- Embedding of `SimpleTimer.resume` (lines 25-27): append a start mark only
if the interval count is even (currently stopped); otherwise no-op. -/
def SimpleTimer.resume (t : SimpleTimer) (now : Nat) : SimpleTimer :=
  if t.state_switches.length % 2 = 0 then
    { t with state_switches := t.state_switches ++ [now] }
  else t

/-- Embedding of `SimpleTimer.stop` (lines 29-31): append an end mark only if
the interval count is odd (currently running); otherwise no-op. -/
def SimpleTimer.stop (t : SimpleTimer) (now : Nat) : SimpleTimer :=
  if t.state_switches.length % 2 = 1 then
    { t with state_switches := t.state_switches ++ [now] }
  else t

/-- Embedding of the class-body alias `pause = stop` (line 32). -/
def SimpleTimer.pause : SimpleTimer → Nat → SimpleTimer := SimpleTimer.stop

/-- Helper for `SimpleTimer.seconds`: the fold over
`zip_longest(state_switches[0::2], state_switches[1::2])`, where a missing
end mark is replaced by the current time (`real_end = end or datetime.now()`)
and the signed durations are summed. -/
def secondsAux : List Nat → Nat → Int
  | [], _ => 0
  | [s], now => (now : Int) - (s : Int)
  | s :: e :: rest, now => ((e : Int) - (s : Int)) + secondsAux rest now

/-- Embedding of the `SimpleTimer.seconds` property (lines 39-49): the sum of
closed-interval durations plus `now - start` for a trailing open interval.
On whole-second timestamps the final `int(total_seconds)` truncation is the
identity, so the result is the exact integer sum. -/
def SimpleTimer.seconds (t : SimpleTimer) (now : Nat) : Int :=
  secondsAux t.state_switches now

/-- Running state: the timer's `state_switches` list has odd length, i.e. it
ends in an open (unterminated) start mark. -/
def SimpleTimer.isOpen (t : SimpleTimer) : Bool :=
  decide (t.state_switches.length % 2 = 1)

/-- The registry `TIMERS` (line 14): a dict keyed by the keystroke string. -/
abbrev Registry := List (String × SimpleTimer)

/-- Dict lookup `TIMERS[k]` / `TIMERS.get(k)`: the value stored at key `k`. -/
def dictGet : Registry → String → Option SimpleTimer
  | [], _ => none
  | (k, v) :: rest, key => if k = key then some v else dictGet rest key

/-- Dict membership test `k in TIMERS`. -/
def hasKey (ts : Registry) (key : String) : Bool :=
  (dictGet ts key).isSome

/-- Dict removal `TIMERS.pop(k, None)`: drop the entry keyed `k` (no-op when
the key is absent).  Dict keys are unique, so dropping every entry with the
key removes exactly the one popped entry. -/
def popKey : Registry → String → Registry
  | [], _ => []
  | (k, v) :: rest, key =>
    if k = key then popKey rest key else (k, v) :: popKey rest key

/-- Embedding of `TIMERS.pop(last_active, None)` (line 170): `last_active`
may be `None`, which is never a dict key, so popping it is a no-op. -/
def popLast (ts : Registry) : Option String → Registry
  | none => ts
  | some l => popKey ts l

/-- Embedding of the pause-all loop (lines 180-181):
`for timer in TIMERS.values(): timer.pause()`. -/
def pauseAll (ts : Registry) (now : Nat) : Registry :=
  ts.map (fun p => (p.1, p.2.pause now))

/-- Embedding of `TIMERS[last_active].resume()` (line 176): mutate the entry
keyed `last_active` in place.  (The Python lookup raises `KeyError` when the
key is absent; the theorem for claim C9 below shows the key is present in
every reachable state in which this branch runs, so the total map-based
embedding agrees with the source on all reachable states.) -/
def resumeKey (ts : Registry) (l : String) (now : Nat) : Registry :=
  ts.map (fun p => (p.1, if p.1 = l then p.2.resume now else p.2))

/-- Embedding of the select loop (lines 193-197):
`for k, v in TIMERS.items(): v.resume() if k == char else v.pause()`. -/
def selectKey (ts : Registry) (char : String) (now : Nat) : Registry :=
  ts.map (fun p => (p.1, if p.1 = char then p.2.resume now else p.2.pause now))

/-- Embedding of the shutdown loop after the input loop (lines 200-201):
`for timer in TIMERS.values(): timer.stop()`. -/
def stopAll (ts : Registry) (now : Nat) : Registry :=
  ts.map (fun p => (p.1, p.2.stop now))

/-- Python `str.lower()` as used on keystroke strings (`char.lower()`,
lines 166, 169, 174): lowercase every character.  Keystroke strings hold at
most one byte, on which per-character lowercasing is exactly `str.lower()`.
(Equals Lean's `String.toLower`, restated by structural recursion over the
character list so that concrete states evaluate.) -/
def pyLower (s : String) : String :=
  { data := s.data.map Char.toLower }

/-- Python truthiness of `last_active` (line 175, `if last_active:`):
`None` and the empty string are falsy, every other string is truthy. -/
def truthy : Option String → Bool
  | none => false
  | some s => decide (s ≠ "")

/-- The mutable state of the `main` input loop (lines 150-198): the module
dict `TIMERS`, the module global `GLOBALS['current_key']`, and the two
loop-local variables `last_active` and `paused`. -/
structure LoopState where
  timers : Registry
  currentKey : Option String
  lastActive : Option String
  paused : Bool
deriving DecidableEq, Repr

/-- Initial state on entry to the loop (lines 14-17 and 162-163): empty
registry, `GLOBALS['current_key'] = None`, `last_active = None`,
`paused = False`. -/
def initState : LoopState :=
  { timers := [], currentKey := none, lastActive := none, paused := false }

/-- Embedding of one iteration of the loop body for a keystroke that is not
`q`/`Q` (lines 169-197; the `q` check at line 166 is handled by `runSession`
below).  Branches, in source order:

* `char.lower() == '*'` (169-173): pop `TIMERS[last_active]`, clear
  `last_active` (note: `GLOBALS['current_key']` is NOT touched here);
* `char.lower() == 'p'` (174-185): only if `last_active` is truthy — when
  `paused`, resume the remembered timer, clear `paused`, set
  `GLOBALS['current_key']`; otherwise pause every timer, set `paused`, clear
  `GLOBALS['current_key']`;
* otherwise (187-197): remember `char` in both `last_active` and
  `GLOBALS['current_key']`, create a `SimpleTimer` for `char` if absent,
  resume `char`'s timer and pause every other (note: `paused` is NOT reset
  here). -/
def loopBody (now : Nat) (char : String) (s : LoopState) : LoopState :=
  if pyLower char = "*" then
    { s with timers := popLast s.timers s.lastActive, lastActive := none }
  else if pyLower char = "p" then
    match s.lastActive with
    | none => s
    | some l =>
      if l = "" then s
      else if s.paused then
        { s with timers := resumeKey s.timers l now,
                 paused := false, currentKey := some l }
      else
        { s with timers := pauseAll s.timers now,
                 paused := true, currentKey := none }
  else
    { timers :=
        selectKey
          (if hasKey s.timers char then s.timers
           else s.timers ++ [(char, SimpleTimer.mk char [])])
          char now,
      currentKey := some char,
      lastActive := some char,
      paused := s.paused }

/-- Embedding of a whole session: process the timed keystroke list through
the `while True:` loop (lines 164-198).  On a `q`/`Q` keystroke the loop
sets `GLOBALS['current_key'] = None` and breaks (lines 166-168), and control
falls directly — with no intervening keystroke processing — to the shutdown
loop (lines 200-201) that stops every timer; the `q` case therefore composes
the break with that stop-all.  If the input list ends without a `q`, the
state returned is the in-loop state after the last processed keystroke (the
real loop would then block waiting for the next keystroke). -/
def runSession : LoopState → List (Nat × String) → LoopState
  | s, [] => s
  | s, (now, c) :: rest =>
    if pyLower c = "q" then
      { s with timers := stopAll s.timers now, currentKey := none }
    else runSession (loopBody now c s) rest

/-- The input loop exits (only a `q`/`Q` keystroke, line 166-168, breaks
out of `while True:`). -/
def loopBreaks : List (Nat × String) → Bool
  | [] => false
  | (_, c) :: rest => if pyLower c = "q" then true else loopBreaks rest

/-- Inductive invariant of the input loop: every timer with an open trailing
interval is the one named by both `GLOBALS['current_key']` and `last_active`,
and `last_active`, when set, names an existing registry entry. -/
def Inv (s : LoopState) : Prop :=
  (∀ p ∈ s.timers, p.2.isOpen = true →
      s.currentKey = some p.1 ∧ s.lastActive = some p.1) ∧
  (∀ l, s.lastActive = some l → hasKey s.timers l = true)

-- sanity checks on the embedding (concrete evaluation)
example : (SimpleTimer.mk "m" []).resume 0 = SimpleTimer.mk "m" [0] := by decide
example :
    runSession initState [(0, "m"), (2, "p"), (7, "p")] =
      { timers := [("m", SimpleTimer.mk "m" [0, 2, 7])],
        currentKey := some "m", lastActive := some "m", paused := false } := by
  decide

/-! Basic lemmas about the timer operations and the registry. -/

/-- Stopping a timer always leaves it with no open trailing interval. -/
theorem isOpen_stop (t : SimpleTimer) (now : Nat) : (t.stop now).isOpen = false := by
  unfold SimpleTimer.stop SimpleTimer.isOpen
  by_cases h : t.state_switches.length % 2 = 1
  · rw [if_pos h]
    simp only [List.length_append, List.length_cons, List.length_nil,
      decide_eq_false_iff_not]
    omega
  · rw [if_neg h]
    simp only [decide_eq_false_iff_not]
    exact h

/-- Pausing is stopping (`pause = stop`). -/
theorem isOpen_pause (t : SimpleTimer) (now : Nat) : (t.pause now).isOpen = false :=
  isOpen_stop t now

/-- Resuming a timer always leaves it with an open trailing interval. -/
theorem isOpen_resume (t : SimpleTimer) (now : Nat) : (t.resume now).isOpen = true := by
  unfold SimpleTimer.resume SimpleTimer.isOpen
  by_cases h : t.state_switches.length % 2 = 0
  · rw [if_pos h]
    simp only [List.length_append, List.length_cons, List.length_nil,
      decide_eq_true_eq]
    omega
  · rw [if_neg h]
    simp only [decide_eq_true_eq]
    omega

/-- Lookup commutes with a key-preserving map over the registry values. -/
theorem dictGet_mapSnd (g : String → SimpleTimer → SimpleTimer) :
    ∀ (ts : Registry) (key : String),
      dictGet (ts.map (fun p => (p.1, g p.1 p.2))) key = (dictGet ts key).map (g key)
  | [], _ => rfl
  | (k, v) :: rest, key => by
    by_cases h : k = key
    · subst h
      simp [dictGet]
    · simp [dictGet, h, dictGet_mapSnd g rest key]

theorem dictGet_pauseAll (ts : Registry) (now : Nat) (key : String) :
    dictGet (pauseAll ts now) key = (dictGet ts key).map (fun t => t.pause now) :=
  dictGet_mapSnd (fun _ t => t.pause now) ts key

theorem dictGet_stopAll (ts : Registry) (now : Nat) (key : String) :
    dictGet (stopAll ts now) key = (dictGet ts key).map (fun t => t.stop now) :=
  dictGet_mapSnd (fun _ t => t.stop now) ts key

theorem dictGet_resumeKey (ts : Registry) (l : String) (now : Nat) (key : String) :
    dictGet (resumeKey ts l now) key =
      (dictGet ts key).map (fun t => if key = l then t.resume now else t) :=
  dictGet_mapSnd (fun a t => if a = l then t.resume now else t) ts key

theorem dictGet_selectKey (ts : Registry) (c : String) (now : Nat) (key : String) :
    dictGet (selectKey ts c now) key =
      (dictGet ts key).map (fun t => if key = c then t.resume now else t.pause now) :=
  dictGet_mapSnd (fun a t => if a = c then t.resume now else t.pause now) ts key

theorem hasKey_pauseAll (ts : Registry) (now : Nat) (key : String) :
    hasKey (pauseAll ts now) key = hasKey ts key := by
  unfold hasKey
  rw [dictGet_pauseAll]
  cases dictGet ts key <;> rfl

theorem hasKey_stopAll (ts : Registry) (now : Nat) (key : String) :
    hasKey (stopAll ts now) key = hasKey ts key := by
  unfold hasKey
  rw [dictGet_stopAll]
  cases dictGet ts key <;> rfl

theorem hasKey_resumeKey (ts : Registry) (l : String) (now : Nat) (key : String) :
    hasKey (resumeKey ts l now) key = hasKey ts key := by
  unfold hasKey
  rw [dictGet_resumeKey]
  cases dictGet ts key <;> rfl

theorem hasKey_selectKey (ts : Registry) (c : String) (now : Nat) (key : String) :
    hasKey (selectKey ts c now) key = hasKey ts key := by
  unfold hasKey
  rw [dictGet_selectKey]
  cases dictGet ts key <;> rfl

/-- Appending a fresh entry makes its key present. -/
theorem hasKey_append_single (ts : Registry) (c : String) (t : SimpleTimer) :
    hasKey (ts ++ [(c, t)]) c = true := by
  induction ts with
  | nil => simp [hasKey, dictGet]
  | cons hd rest ih =>
    obtain ⟨k, v⟩ := hd
    by_cases h : k = c
    · simp [hasKey, dictGet, h]
    · simpa [hasKey, dictGet, h] using ih

/-- A stored entry's key is present. -/
theorem hasKey_of_mem : ∀ {ts : Registry} {p : String × SimpleTimer},
    p ∈ ts → hasKey ts p.1 = true
  | [], _, hp => absurd hp (List.not_mem_nil _)
  | (k, v) :: rest, p, hp => by
    rcases List.mem_cons.mp hp with h | h
    · subst h
      simp [hasKey, dictGet]
    · by_cases hk : k = p.1
      · simp [hasKey, dictGet, hk]
      · simpa [hasKey, dictGet, hk] using hasKey_of_mem h

/-- Popping a key leaves every entry in the registry, minus that key. -/
theorem mem_popKey : ∀ {ts : Registry} {l : String} {p : String × SimpleTimer},
    p ∈ popKey ts l → p ∈ ts ∧ p.1 ≠ l
  | [], _, _, hp => absurd hp (List.not_mem_nil _)
  | (k, v) :: rest, l, p, hp => by
    by_cases h : k = l
    · simp only [popKey, if_pos h] at hp
      exact ⟨List.mem_cons_of_mem _ (mem_popKey hp).1, (mem_popKey hp).2⟩
    · simp only [popKey, if_neg h] at hp
      rcases List.mem_cons.mp hp with h2 | h2
      · subst h2
        exact ⟨List.mem_cons_self _ _, h⟩
      · exact ⟨List.mem_cons_of_mem _ (mem_popKey h2).1, (mem_popKey h2).2⟩

/-- Popping one key leaves the lookup of every other key unchanged. -/
theorem dictGet_popKey_ne : ∀ (ts : Registry) (l k : String), k ≠ l →
    dictGet (popKey ts l) k = dictGet ts k
  | [], _, _, _ => rfl
  | (a, v) :: rest, l, k, h => by
    have hne : ∀ x y : String, x = y → ¬ x = y → False := fun _ _ hxy hnxy => hnxy hxy
    by_cases ha : a = l
    · have hak : ¬ a = k := fun hak => h (by rw [← hak, ha])
      simp only [popKey, if_pos ha, dictGet, if_neg hak]
      exact dictGet_popKey_ne rest l k h
    · simp only [popKey, if_neg ha, dictGet]
      by_cases hak : a = k
      · simp only [if_pos hak]
      · simp only [if_neg hak]
        exact dictGet_popKey_ne rest l k h

/-- Popping a key removes it from the registry. -/
theorem dictGet_popKey_self : ∀ (ts : Registry) (l : String),
    dictGet (popKey ts l) l = none
  | [], _ => rfl
  | (a, v) :: rest, l => by
    by_cases ha : a = l
    · simp only [popKey, if_pos ha]
      exact dictGet_popKey_self rest l
    · simp only [popKey, if_neg ha, dictGet, if_neg ha]
      exact dictGet_popKey_self rest l

/-! The reachable-state invariant of the input loop. -/

theorem Inv_initState : Inv initState :=
  ⟨fun p hp => absurd hp (List.not_mem_nil p), fun _ hl => Option.noConfusion hl⟩

/-- Processing one non-quit keystroke preserves the loop invariant. -/
theorem Inv_loopBody (now : Nat) (c : String) (s : LoopState) (h : Inv s) :
    Inv (loopBody now c s) := by
  obtain ⟨hopen, hlast⟩ := h
  unfold loopBody
  by_cases hstar : pyLower c = "*"
  · rw [if_pos hstar]
    refine ⟨?_, ?_⟩
    · intro p hp hpo
      exfalso
      cases hla : s.lastActive with
      | none =>
        rw [hla] at hp
        have := (hopen p hp hpo).2
        rw [hla] at this
        exact Option.noConfusion this
      | some l =>
        rw [hla] at hp
        obtain ⟨hmem, hne⟩ := mem_popKey hp
        have := (hopen p hmem hpo).2
        rw [hla] at this
        exact hne (Option.some.inj this).symm
    · intro l hl
      exact Option.noConfusion hl
  · rw [if_neg hstar]
    by_cases hpc : pyLower c = "p"
    · rw [if_pos hpc]
      cases hla : s.lastActive with
      | none => exact ⟨hopen, hlast⟩
      | some l =>
        dsimp only
        by_cases hle : l = ""
        · rw [if_pos hle]
          exact ⟨hopen, hlast⟩
        · rw [if_neg hle]
          by_cases hpa : s.paused
          · rw [if_pos hpa]
            refine ⟨?_, ?_⟩
            · intro p hp hpo
              obtain ⟨q, hq, hqe⟩ := List.mem_map.mp hp
              by_cases hql : q.1 = l
              · subst hqe
                exact ⟨by rw [hql], by rw [hql]⟩
              · exfalso
                rw [if_neg hql] at hqe
                subst hqe
                have := (hopen q hq hpo).2
                rw [hla] at this
                exact hql (Option.some.inj this).symm
            · intro l' hl'
              have hll : l = l' := Option.some.inj hl'
              rw [hasKey_resumeKey]
              exact hlast l' (hll ▸ hla)
          · rw [if_neg hpa]
            refine ⟨?_, ?_⟩
            · intro p hp hpo
              exfalso
              obtain ⟨q, hq, hqe⟩ := List.mem_map.mp hp
              subst hqe
              rw [isOpen_pause] at hpo
              exact Bool.noConfusion hpo
            · intro l' hl'
              have hll : l = l' := Option.some.inj hl'
              rw [hasKey_pauseAll]
              exact hlast l' (hll ▸ hla)
    · rw [if_neg hpc]
      refine ⟨?_, ?_⟩
      · intro p hp hpo
        obtain ⟨q, hq, hqe⟩ := List.mem_map.mp hp
        by_cases hqc : q.1 = c
        · subst hqe
          exact ⟨by rw [hqc], by rw [hqc]⟩
        · exfalso
          rw [if_neg hqc] at hqe
          subst hqe
          rw [isOpen_pause] at hpo
          exact Bool.noConfusion hpo
      · intro l' hl'
        have hlc : l' = c := (Option.some.inj hl').symm
        subst hlc
        rw [hasKey_selectKey]
        by_cases hmem : hasKey s.timers l'
        · rw [if_pos hmem]
          exact hmem
        · rw [if_neg hmem]
          exact hasKey_append_single s.timers l' (SimpleTimer.mk l' [])

/-- The quit path (break, then stop every timer) establishes the invariant. -/
theorem Inv_quit (now : Nat) (s : LoopState) (h : Inv s) :
    Inv { s with timers := stopAll s.timers now, currentKey := none } := by
  obtain ⟨-, hlast⟩ := h
  refine ⟨?_, ?_⟩
  · intro p hp hpo
    exfalso
    obtain ⟨q, hq, hqe⟩ := List.mem_map.mp hp
    subst hqe
    rw [isOpen_stop] at hpo
    exact Bool.noConfusion hpo
  · intro l hl
    rw [hasKey_stopAll]
    exact hlast l hl

/-- The loop invariant holds after processing any timed keystroke list. -/
theorem Inv_runSession : ∀ (inputs : List (Nat × String)) (s : LoopState),
    Inv s → Inv (runSession s inputs)
  | [], _, h => h
  | (now, c) :: rest, s, h => by
    unfold runSession
    by_cases hq : pyLower c = "q"
    · rw [if_pos hq]
      exact Inv_quit now s h
    · rw [if_neg hq]
      exact Inv_runSession rest _ (Inv_loopBody now c s h)

/-! Claim theorems. -/

/-- C1: after the main input loop finishes processing any keystroke — for
every timed keystroke sequence from the initial empty state — every timer
with an open trailing interval (odd-length `state_switches`) is labelled by
the active label `GLOBALS['current_key']`, and hence at most one such timer
exists (any two open entries carry the same label).  Processing a `q`
keystroke here includes the stop-all loop the code runs directly after the
break. -/
theorem C1_exclusivity (inputs : List (Nat × String)) :
    (∀ p ∈ (runSession initState inputs).timers, p.2.isOpen = true →
        (runSession initState inputs).currentKey = some p.1) ∧
    (∀ p ∈ (runSession initState inputs).timers,
      ∀ q ∈ (runSession initState inputs).timers,
        p.2.isOpen = true → q.2.isOpen = true → p.1 = q.1) := by
  have h := Inv_runSession inputs initState Inv_initState
  refine ⟨fun p hp hpo => (h.1 p hp hpo).1, ?_⟩
  intro p hp q hq hpo hqo
  have h1 := (h.1 p hp hpo).1
  have h2 := (h.1 q hq hqo).1
  rw [h1] at h2
  exact Option.some.inj h2

/-- Witness for C1 at the concrete run `[(0, "a")]`: the single open timer
is keyed by the active label. -/
theorem C1_exclusivity_witness :
    ("a", SimpleTimer.mk "a" [0]) ∈ (runSession initState [(0, "a")]).timers ∧
    (runSession initState [(0, "a")]).currentKey = some "a" :=
  ⟨by decide,
   (C1_exclusivity [(0, "a")]).1 ("a", SimpleTimer.mk "a" [0]) (by decide) (by decide)⟩

/-- C2 counterexample: the claim says a selection keystroke sets
`globally_paused` to false, so that an immediately following `p` pauses.
On the history `a, p, b` the selection of `b` leaves the `paused` flag true
(the select branch never resets it), so the following `p` takes the resume
branch: timer `b` keeps its open interval `[2]`, `paused` flips to false and
the current key stays `b` — nothing is paused, refuting the claim at this
concrete input. -/
theorem C2_counterexample :
    (runSession initState [(0, "a"), (1, "p"), (2, "b")]).paused = true ∧
    (runSession initState [(0, "a"), (1, "p"), (2, "b"), (3, "p")]).paused = false ∧
    (runSession initState [(0, "a"), (1, "p"), (2, "b"), (3, "p")]).currentKey =
      some "b" ∧
    dictGet (runSession initState [(0, "a"), (1, "p"), (2, "b"), (3, "p")]).timers
      "b" = some (SimpleTimer.mk "b" [2]) := by
  decide

/-- C2 amended: a selection keystroke `k` (not `q`/`Q`, `p`/`P`, `*`, and a
real one-byte keystroke, so non-empty) sets the active label to `k` and
leaves the `paused` flag unchanged; the immediately following `p`/`P` closes
the open interval on every running timer, sets the flag and clears the
active label provided the flag was false at the selection. -/
theorem C2_select_then_pause (s : LoopState) (now now2 : Nat) (k : String)
    (hne : k ≠ "") (hq : pyLower k ≠ "q") (hp : pyLower k ≠ "p")
    (hst : pyLower k ≠ "*") :
    (loopBody now k s).currentKey = some k ∧
    (loopBody now k s).lastActive = some k ∧
    (loopBody now k s).paused = s.paused ∧
    (s.paused = false →
      (loopBody now2 "p" (loopBody now k s)).paused = true ∧
      (loopBody now2 "p" (loopBody now k s)).currentKey = none ∧
      ∀ p ∈ (loopBody now2 "p" (loopBody now k s)).timers, p.2.isOpen = false) := by
  have hbody : loopBody now k s =
      { timers := selectKey
          (if hasKey s.timers k then s.timers
           else s.timers ++ [(k, SimpleTimer.mk k [])]) k now,
        currentKey := some k, lastActive := some k, paused := s.paused } := by
    unfold loopBody
    rw [if_neg hst, if_neg hp]
  refine ⟨by rw [hbody], by rw [hbody], by rw [hbody], ?_⟩
  intro hpaused
  have hbody2 : loopBody now2 "p" (loopBody now k s) =
      { timers := pauseAll (loopBody now k s).timers now2,
        currentKey := none, lastActive := some k, paused := true } := by
    rw [hbody]
    unfold loopBody
    rw [if_neg (show pyLower "p" ≠ "*" by decide),
      if_pos (show pyLower "p" = "p" by decide)]
    dsimp only
    rw [if_neg hne, hpaused, if_neg Bool.false_ne_true]
  refine ⟨by rw [hbody2], by rw [hbody2], ?_⟩
  intro p hp2
  rw [hbody2] at hp2
  obtain ⟨q, hq2, hqe⟩ := List.mem_map.mp hp2
  subst hqe
  exact isOpen_pause q.2 now2

/-- Witness for C2's amended theorem at `k = "b"` from the initial state. -/
theorem C2_select_then_pause_witness :
    (loopBody 0 "b" initState).currentKey = some "b" ∧
    (loopBody 1 "p" (loopBody 0 "b" initState)).paused = true ∧
    (loopBody 1 "p" (loopBody 0 "b" initState)).currentKey = none :=
  ⟨(C2_select_then_pause initState 0 1 "b" (by decide) (by decide) (by decide)
      (by decide)).1,
   ((C2_select_then_pause initState 0 1 "b" (by decide) (by decide) (by decide)
      (by decide)).2.2.2 rfl).1,
   ((C2_select_then_pause initState 0 1 "b" (by decide) (by decide) (by decide)
      (by decide)).2.2.2 rfl).2.1⟩

/-- C3 counterexample: after the run `a, *` the `'*'` branch has deleted
timer `a` but left `GLOBALS['current_key']` pointing at it (only
`last_active` is cleared), so the active label is set yet names no entry of
the registry — refuting the claimed invariant at this concrete input. -/
theorem C3_counterexample :
    (runSession initState [(0, "a"), (1, "*")]).currentKey = some "a" ∧
    hasKey (runSession initState [(0, "a"), (1, "*")]).timers "a" = false := by
  decide

/-- C3 amended: in every reachable state, if `GLOBALS['current_key']` is set
then either it names an existing registry entry, or it is a stale value left
by a `'*'` deletion (which does not clear it) and in that case no timer has
an open trailing interval.  (The unconditional form of the invariant holds
for `last_active`, the variable the code actually dereferences.) -/
theorem C3_current_key_valid_or_stale (inputs : List (Nat × String)) (c : String)
    (hc : (runSession initState inputs).currentKey = some c) :
    hasKey (runSession initState inputs).timers c = true ∨
      ∀ p ∈ (runSession initState inputs).timers, p.2.isOpen = false := by
  have h := Inv_runSession inputs initState Inv_initState
  by_cases hex : ∃ p ∈ (runSession initState inputs).timers, p.2.isOpen = true
  · left
    obtain ⟨p, hp, hpo⟩ := hex
    have h1 := (h.1 p hp hpo).1
    rw [hc] at h1
    rw [Option.some.inj h1]
    exact hasKey_of_mem hp
  · right
    intro p hp
    by_contra hne
    simp only [Bool.not_eq_false] at hne
    exact hex ⟨p, hp, hne⟩

/-- Witness for C3's amended theorem at the concrete run `[(0, "a")]`. -/
theorem C3_current_key_valid_or_stale_witness :
    hasKey (runSession initState [(0, "a")]).timers "a" = true ∨
      ∀ p ∈ (runSession initState [(0, "a")]).timers, p.2.isOpen = false :=
  C3_current_key_valid_or_stale [(0, "a")] "a" (by decide)

/-- C4 counterexample: after `a, p` the pause has cleared the active label
(`GLOBALS['current_key'] = None`) and timer `a` holds the closed interval
`[0, 1]`; the following `'*'` nevertheless deletes timer `a` (the branch
pops `TIMERS[last_active]`, and pausing leaves `last_active` set), leaving
the registry empty — refuting the claim at this concrete input. -/
theorem C4_counterexample :
    (runSession initState [(0, "a"), (1, "p")]).currentKey = none ∧
    dictGet (runSession initState [(0, "a"), (1, "p")]).timers "a" =
      some (SimpleTimer.mk "a" [0, 1]) ∧
    (runSession initState [(0, "a"), (1, "p"), (2, "*")]).timers = [] := by
  decide

/-- C4 amended: pressing `'*'` is a no-op on the registry exactly when the
remembered label `last_active` is unset (initially, or after a previous
`'*'`); pausing clears only `GLOBALS['current_key']`, not `last_active`, so
a `'*'` immediately after a pause deletes the remembered timer. -/
theorem C4_star_noop_iff_no_last_active (s : LoopState) (now : Nat)
    (h : s.lastActive = none) :
    (loopBody now "*" s).timers = s.timers ∧
    (loopBody now "*" s).lastActive = none ∧
    (loopBody now "*" s).currentKey = s.currentKey := by
  have hb : loopBody now "*" s =
      { s with timers := popLast s.timers s.lastActive, lastActive := none } := by
    unfold loopBody
    rw [if_pos (show pyLower "*" = "*" by decide)]
  rw [hb, h]
  exact ⟨rfl, rfl, rfl⟩

/-- Witness for C4's amended theorem: in the state reached by `a, *` the
remembered label is unset and a second `'*'` leaves the registry unchanged. -/
theorem C4_star_noop_iff_no_last_active_witness :
    (runSession initState [(0, "a"), (1, "*")]).lastActive = none ∧
    (loopBody 2 "*" (runSession initState [(0, "a"), (1, "*")])).timers =
      (runSession initState [(0, "a"), (1, "*")]).timers :=
  ⟨by decide, (C4_star_noop_iff_no_last_active _ 2 (by decide)).1⟩

/-- C5: contrary to the claim, an exhausted input source does not end the
session.  `sys.stdin.read(1)` returns `""` at EOF, `getch` raises nothing,
and the loop treats `""` as an ordinary label: after the run `a` followed by
an empty read, the loop has not broken (no `q` was seen), a brand-new timer
keyed by the empty string has been created and selected, and the registry
has grown to two entries — the loop keeps running (and at EOF would keep
reading `""` forever) rather than terminating. -/
theorem C5_empty_read_is_processed :
    loopBreaks [(0, "a"), (1, "")] = false ∧
    hasKey (runSession initState [(0, "a"), (1, "")]).timers "" = true ∧
    (runSession initState [(0, "a"), (1, "")]).currentKey = some "" ∧
    (runSession initState [(0, "a"), (1, "")]).lastActive = some "" ∧
    (runSession initState [(0, "a"), (1, "")]).timers =
      [("a", SimpleTimer.mk "a" [0, 1]), ("", SimpleTimer.mk "" [1])] := by
  decide

/-- C6: pause/resume round-trip under the simulated clock: select `m` at 0,
pause at 2, resume at 7; at time 8 the elapsed seconds of `m` are
`(2 - 0) + (8 - 7) = 3` — the five paused seconds are excluded. -/
theorem C6_pause_resume_roundtrip :
    runSession initState [(0, "m"), (2, "p"), (7, "p")] =
      { timers := [("m", SimpleTimer.mk "m" [0, 2, 7])],
        currentKey := some "m", lastActive := some "m", paused := false } ∧
    (dictGet (runSession initState [(0, "m"), (2, "p"), (7, "p")]).timers "m").map
        (fun t => t.seconds 8) = some 3 := by
  decide

/-- C7: end-to-end scenario `a, b, a, q` with one second between keystrokes:
the loop breaks on `q`, the shutdown path closes every open interval, and
the final registry gives `a` two elapsed seconds and `b` one. -/
theorem C7_end_to_end :
    loopBreaks [(0, "a"), (1, "b"), (2, "a"), (3, "q")] = true ∧
    runSession initState [(0, "a"), (1, "b"), (2, "a"), (3, "q")] =
      { timers := [("a", SimpleTimer.mk "a" [0, 1, 2, 3]),
                   ("b", SimpleTimer.mk "b" [1, 2])],
        currentKey := none, lastActive := some "a", paused := false } ∧
    (dictGet (runSession initState
        [(0, "a"), (1, "b"), (2, "a"), (3, "q")]).timers "a").map
      (fun t => t.seconds 3) = some 2 ∧
    (dictGet (runSession initState
        [(0, "a"), (1, "b"), (2, "a"), (3, "q")]).timers "b").map
      (fun t => t.seconds 3) = some 1 := by
  decide

/-- C8: idempotent resume: on a timer whose interval count is even (stopped),
two consecutive `resume()` calls append exactly one start mark — the list
grows by exactly one element and ends in a single open trailing interval. -/
theorem C8_idempotent_resume (t : SimpleTimer) (n1 n2 : Nat)
    (h : t.state_switches.length % 2 = 0) :
    ((t.resume n1).resume n2).state_switches = t.state_switches ++ [n1] ∧
    ((t.resume n1).resume n2).state_switches.length =
      t.state_switches.length + 1 ∧
    ((t.resume n1).resume n2).state_switches.length % 2 = 1 := by
  have h1 : t.resume n1 =
      { t with state_switches := t.state_switches ++ [n1] } := by
    unfold SimpleTimer.resume
    rw [if_pos h]
  have hlen : ¬ ({ t with state_switches := t.state_switches ++ [n1] } :
      SimpleTimer).state_switches.length % 2 = 0 := by
    simp only [List.length_append, List.length_cons, List.length_nil]
    omega
  have h2 : (t.resume n1).resume n2 =
      { t with state_switches := t.state_switches ++ [n1] } := by
    rw [h1]
    unfold SimpleTimer.resume
    rw [if_neg hlen]
  rw [h2]
  refine ⟨rfl, by simp, ?_⟩
  simp only [List.length_append, List.length_cons, List.length_nil]
  omega

/-- Witness for C8 on the fresh timer `x` with an empty interval list. -/
theorem C8_idempotent_resume_witness :
    (((SimpleTimer.mk "x" []).resume 0).resume 5).state_switches =
      (SimpleTimer.mk "x" []).state_switches ++ [0] ∧
    (((SimpleTimer.mk "x" []).resume 0).resume 5).state_switches.length =
      (SimpleTimer.mk "x" []).state_switches.length + 1 ∧
    (((SimpleTimer.mk "x" []).resume 0).resume 5).state_switches.length % 2 = 1 :=
  C8_idempotent_resume (SimpleTimer.mk "x" []) 0 5 (by decide)

/-- C9 (implicit): in every reachable state of the input loop, a truthy
`last_active` names an existing registry entry, so the lookup
`TIMERS[last_active]` in the resume branch of the `p`/`P` handler can never
raise a key-absent error. -/
theorem C9_last_active_always_present (inputs : List (Nat × String)) (l : String)
    (hl : (runSession initState inputs).lastActive = some l) (hne : l ≠ "") :
    hasKey (runSession initState inputs).timers l = true :=
  (Inv_runSession inputs initState Inv_initState).2 l hl

/-- Witness for C9 at the concrete run `[(0, "a")]`. -/
theorem C9_last_active_always_present_witness :
    (runSession initState [(0, "a")]).lastActive = some "a" ∧
    hasKey (runSession initState [(0, "a")]).timers "a" = true :=
  ⟨by decide, C9_last_active_always_present [(0, "a")] "a" (by decide) (by decide)⟩

/-- C10 (implicit): frame property of `'*'` over any loop state (hence over
the state after any keystroke history): processing `'*'` removes exactly the
entry keyed by the remembered `last_active` label and leaves the stored
timer — interval list and therefore elapsed time at every instant — of
every other label untouched. -/
theorem C10_star_frame (s : LoopState) (now : Nat) :
    (∀ k, s.lastActive ≠ some k →
        dictGet (loopBody now "*" s).timers k = dictGet s.timers k) ∧
    (∀ l, s.lastActive = some l →
        dictGet (loopBody now "*" s).timers l = none) ∧
    (∀ k, s.lastActive ≠ some k → ∀ n2 : Nat,
        (dictGet (loopBody now "*" s).timers k).map (fun t => t.seconds n2) =
          (dictGet s.timers k).map (fun t => t.seconds n2)) := by
  have hb : loopBody now "*" s =
      { s with timers := popLast s.timers s.lastActive, lastActive := none } := by
    unfold loopBody
    rw [if_pos (show pyLower "*" = "*" by decide)]
  have hget : ∀ k, s.lastActive ≠ some k →
      dictGet (loopBody now "*" s).timers k = dictGet s.timers k := by
    intro k hk
    rw [hb]
    cases hla : s.lastActive with
    | none => rfl
    | some l =>
      exact dictGet_popKey_ne s.timers l k (fun he => hk (by rw [hla, he]))
  refine ⟨hget, ?_, ?_⟩
  · intro l hl
    rw [hb, hl]
    exact dictGet_popKey_self s.timers l
  · intro k hk n2
    rw [hget k hk]

/-- Witness for C10 in the state reached by `a, b`: a `'*'` there removes
timer `b` (the remembered label) and leaves timer `a` untouched. -/
theorem C10_star_frame_witness :
    dictGet (loopBody 2 "*" (runSession initState [(0, "a"), (1, "b")])).timers
        "a" =
      dictGet (runSession initState [(0, "a"), (1, "b")]).timers "a" ∧
    dictGet (loopBody 2 "*" (runSession initState [(0, "a"), (1, "b")])).timers
        "b" = none :=
  ⟨(C10_star_frame (runSession initState [(0, "a"), (1, "b")]) 2).1 "a" (by decide),
   (C10_star_frame (runSession initState [(0, "a"), (1, "b")]) 2).2.1 "b"
     (by decide)⟩

end Cstop
